import Mathlib

/-!
Shallow embedding of the retrieval/reranking core of `llm-simple-rag-chat`
(file `llm_simple_rag_chat/rag_utils.py`), together with proofs of the
specification claims about it.

Conventions of the embedding:
* Python `langchain` `Document` objects become a structure with a
  `page_content` string and an insertion-ordered association-list
  `metadata` (modelling a Python `dict`, whose iteration and `str()`
  order is insertion order).
* Relevance / similarity scores (Python floats) are modelled as rationals.
* Network and filesystem effects are passed in explicitly as data
  (`RerankResponse`, `CacheEnv`); fallible operations return `Except`.
* `str()` / `repr()` of Python strings and dicts, UTF-8 encoding and
  SHA-256 are modelled executably and faithfully (for strings, the
  CPython `repr` algorithm: quote selection and ASCII escaping; code
  points at or above 0x80 are kept verbatim, as CPython does for
  printable characters).
-/

/-- A Python metadata value: the values that appear in chunk metadata in
this program are strings (e.g. `source` paths), ints (e.g. page numbers)
and floats (`similarity_score`, `reranker_score`); floats are modelled as
rationals. -/
inductive MVal where
  | str : String → MVal
  | int : Int → MVal
  | rat : ℚ → MVal
deriving DecidableEq, Repr

/-- Association-list update modelling Python `d[k] = v` on a dict: the
first binding of `k` is overwritten in place, otherwise the binding is
appended at the end (insertion order). -/
def setKey : List (String × MVal) → String → MVal → List (String × MVal)
  | [], k, v => [(k, v)]
  | (k', v') :: rest, k, v =>
    if k' = k then (k, v) :: rest else (k', v') :: setKey rest k v

/-- Association-list lookup modelling Python `d.get(k)`. -/
def getKey : List (String × MVal) → String → Option MVal
  | [], _ => none
  | (k', v') :: rest, k => if k' = k then some v' else getKey rest k

/-- A `langchain` `Document`: a chunk of retrievable text plus metadata. -/
structure Document where
  page_content : String
  metadata : List (String × MVal)
deriving DecidableEq, Repr

/-- Python `doc.metadata[k] = v`. -/
def Document.setMeta (d : Document) (k : String) (v : MVal) : Document :=
  { d with metadata := setKey d.metadata k v }

/-! ## Python `repr` / `str` of strings and dicts -/

/-- Hex digit character, lower case (as CPython prints them). -/
def hexDigit (n : Nat) : Char :=
  if n < 10 then Char.ofNat (48 + n) else Char.ofNat (87 + n)

/-- CPython quote selection for `repr` of a string: single quotes, unless
the string contains a single quote and no double quote. -/
def pyQuote (s : String) : Char :=
  if '\'' ∈ s.data ∧ '"' ∉ s.data then '"' else '\''

/-- CPython escaping of one character inside a `repr`-quoted string with
quote character `q`: backslash and the quote are backslash-escaped, tab,
newline and carriage return print as `\t` `\n` `\r`, other C0 controls
and DEL print as `\xHH`. -/
def pyEscapeChar (q : Char) (c : Char) : List Char :=
  if c = '\\' then ['\\', '\\']
  else if c = q then ['\\', q]
  else if c = '\t' then ['\\', 't']
  else if c = '\n' then ['\\', 'n']
  else if c = '\r' then ['\\', 'r']
  else if c.toNat < 32 ∨ c.toNat = 127 then
    ['\\', 'x', hexDigit (c.toNat / 16), hexDigit (c.toNat % 16)]
  else [c]

/-- CPython `repr` of a string. -/
def pyReprStr (s : String) : String :=
  let q := pyQuote s
  ⟨q :: s.data.flatMap (pyEscapeChar q) ++ [q]⟩

/-- Python `repr` of a metadata value (inside a dict, `str` shows values
with `repr`).  A rational that is not an integer stands for a float; its
exact CPython rendering is irrelevant to every claim (chunk metadata is
fingerprinted before any score is attached), so it is rendered as the
decimal of numerator and denominator. -/
def pyReprVal : MVal → String
  | .str s => pyReprStr s
  | .int i => toString i
  | .rat q => toString q.num ++ "/" ++ toString q.den

/-- The comma-separated item list of Python `str` of a dict. -/
def dictItems : List (String × MVal) → String
  | [] => ""
  | [kv] => pyReprStr kv.1 ++ ": " ++ pyReprVal kv.2
  | kv :: kv' :: rest => pyReprStr kv.1 ++ ": " ++ pyReprVal kv.2 ++ ", " ++ dictItems (kv' :: rest)

/-- Python `str` of a dict (`\x7b`/`\x7d` are the brace characters). -/
def pyStrDict (m : List (String × MVal)) : String :=
  "\x7b" ++ dictItems m ++ "\x7d"

/-- Python `repr` of a 2-tuple of strings. -/
def pyReprPair (p : String × String) : String :=
  "(" ++ pyReprStr p.1 ++ ", " ++ pyReprStr p.2 ++ ")"

/-- The comma-separated item list of Python `str` of a list of string pairs. -/
def listItems : List (String × String) → String
  | [] => ""
  | [p] => pyReprPair p
  | p :: p' :: rest => pyReprPair p ++ ", " ++ listItems (p' :: rest)

/-- Python `str` of a list of 2-tuples of strings. -/
def pyStrListPairs (l : List (String × String)) : String :=
  "[" ++ listItems l ++ "]"

/-! ## UTF-8 and SHA-256 (for the chunk fingerprint) -/

/-- UTF-8 encoding of one code point, as a list of byte values. -/
def utf8EncodeCharNat (c : Char) : List Nat :=
  let n := c.toNat
  if n < 128 then [n]
  else if n < 2048 then [192 + n / 64, 128 + n % 64]
  else if n < 65536 then [224 + n / 4096, 128 + n / 64 % 64, 128 + n % 64]
  else [240 + n / 262144, 128 + n / 4096 % 64, 128 + n / 64 % 64, 128 + n % 64]

/-- UTF-8 encoding of a string (Python `s.encode('utf-8')`). -/
def utf8Bytes (s : String) : List Nat :=
  s.data.flatMap utf8EncodeCharNat

/-- 2^32, the modulus of SHA-256 word arithmetic. -/
def w32 : Nat := 4294967296

/-- Right rotation of a 32-bit word. -/
def rotr32 (x n : Nat) : Nat := (x / 2 ^ n + x % 2 ^ n * 2 ^ (32 - n)) % w32

def shaCh (x y z : Nat) : Nat := (x &&& y) ^^^ ((x ^^^ 4294967295) &&& z)

def shaMaj (x y z : Nat) : Nat := (x &&& y) ^^^ (x &&& z) ^^^ (y &&& z)

def bigSigma0 (x : Nat) : Nat := rotr32 x 2 ^^^ rotr32 x 13 ^^^ rotr32 x 22

def bigSigma1 (x : Nat) : Nat := rotr32 x 6 ^^^ rotr32 x 11 ^^^ rotr32 x 25

def smallSigma0 (x : Nat) : Nat := rotr32 x 7 ^^^ rotr32 x 18 ^^^ x / 2 ^ 3

def smallSigma1 (x : Nat) : Nat := rotr32 x 17 ^^^ rotr32 x 19 ^^^ x / 2 ^ 10

/-- The 64 SHA-256 round constants (FIPS 180-4), in decimal. -/
def shaK : List Nat := [
  1116352408, 1899447441, 3049323471, 3921009573,
  961987163, 1508970993, 2453635748, 2870763221,
  3624381080, 310598401, 607225278, 1426881987,
  1925078388, 2162078206, 2614888103, 3248222580,
  3835390401, 4022224774, 264347078, 604807628,
  770255983, 1249150122, 1555081692, 1996064986,
  2554220882, 2821834349, 2952996808, 3210313671,
  3336571891, 3584528711, 113926993, 338241895,
  666307205, 773529912, 1294757372, 1396182291,
  1695183700, 1986661051, 2177026350, 2456956037,
  2730485921, 2820302411, 3259730800, 3345764771,
  3516065817, 3600352804, 4094571909, 275423344,
  430227734, 506948616, 659060556, 883997877,
  958139571, 1322822218, 1537002063, 1747873779,
  1955562222, 2024104815, 2227730452, 2361852424,
  2428436474, 2756734187, 3204031479, 3329325298]

/-- SHA-256 padding: append 0x80, zeros, and the 64-bit big-endian bit length. -/
def natToBytesBE : Nat → Nat → List Nat
  | 0, _ => []
  | n + 1, x => natToBytesBE n (x / 256) ++ [x % 256]

def shaPad (msg : List Nat) : List Nat :=
  msg ++ 128 :: List.replicate ((119 - msg.length % 64) % 64) 0 ++ natToBytesBE 8 (8 * msg.length)

/-- Big-endian 32-bit words from a byte list. -/
def bytesToWords : List Nat → List Nat
  | b0 :: b1 :: b2 :: b3 :: rest => (((b0 * 256 + b1) * 256 + b2) * 256 + b3) :: bytesToWords rest
  | _ => []

/-- Split a byte list into 64-byte blocks (structural recursion on a fuel
bound so that the kernel can evaluate it; the fuel `l.length` always
suffices since each step consumes at least one byte). -/
def shaBlocksAux : Nat → List Nat → List (List Nat)
  | _, [] => []
  | 0, l => [l]
  | fuel + 1, b :: rest => ((b :: rest).take 64) :: shaBlocksAux fuel ((b :: rest).drop 64)

def shaBlocks (l : List Nat) : List (List Nat) :=
  shaBlocksAux l.length l

/-- One message-schedule extension step: append word `t` computed from
words `t-2`, `t-7`, `t-15`, `t-16`. -/
def scheduleStep (ws : List Nat) : List Nat :=
  let t := ws.length
  ws ++ [(smallSigma1 (ws.getD (t - 2) 0) + ws.getD (t - 7) 0 +
          smallSigma0 (ws.getD (t - 15) 0) + ws.getD (t - 16) 0) % w32]

def buildSchedule : Nat → List Nat → List Nat
  | 0, ws => ws
  | n + 1, ws => buildSchedule n (scheduleStep ws)

/-- The eight working variables of the SHA-256 compression function. -/
structure Hash8 where
  a : Nat
  b : Nat
  c : Nat
  d : Nat
  e : Nat
  f : Nat
  g : Nat
  h : Nat
deriving DecidableEq, Repr

/-- One compression round; `kw` is the pair (round constant, schedule word). -/
def shaRound (st : Hash8) (kw : Nat × Nat) : Hash8 :=
  let t1 := (st.h + bigSigma1 st.e + shaCh st.e st.f st.g + kw.1 + kw.2) % w32
  let t2 := (bigSigma0 st.a + shaMaj st.a st.b st.c) % w32
  ⟨(t1 + t2) % w32, st.a, st.b, st.c, (st.d + t1) % w32, st.e, st.f, st.g⟩

def shaInit : Hash8 :=
  ⟨1779033703, 3144134277, 1013904242, 2773480762, 1359893119, 2600822924, 528734635, 1541459225⟩

/-- Process one 64-byte block. -/
def processBlock (st : Hash8) (block : List Nat) : Hash8 :=
  let ws := buildSchedule 48 (bytesToWords block)
  let r := (shaK.zip ws).foldl shaRound st
  ⟨(st.a + r.a) % w32, (st.b + r.b) % w32, (st.c + r.c) % w32, (st.d + r.d) % w32,
   (st.e + r.e) % w32, (st.f + r.f) % w32, (st.g + r.g) % w32, (st.h + r.h) % w32⟩

def sha256Words (msg : List Nat) : List Nat :=
  let fin := (shaBlocks (shaPad msg)).foldl processBlock shaInit
  [fin.a, fin.b, fin.c, fin.d, fin.e, fin.f, fin.g, fin.h]

def toHexFixed : Nat → Nat → List Char
  | 0, _ => []
  | n + 1, x => toHexFixed n (x / 16) ++ [hexDigit (x % 16)]

/-- Lower-case hex digest of SHA-256 of a byte list (Python
`hashlib.sha256(bytes).hexdigest()`). -/
def sha256Hex (msg : List Nat) : String :=
  ⟨(sha256Words msg).flatMap (toHexFixed 8)⟩

/-! ## The chunk fingerprint (`rag_utils.py`, lines 81-84)

```python
chunks_data = [(chunk.page_content, str(chunk.metadata)) for chunk in chunks]
chunks_str = str(chunks_data).encode('utf-8')
chunks_hash = hashlib.sha256(chunks_str).hexdigest()
```
-/

def chunks_data (chunks : List Document) : List (String × String) :=
  chunks.map fun chunk => (chunk.page_content, pyStrDict chunk.metadata)

/-- The string `str(chunks_data)` whose UTF-8 bytes are hashed. -/
def chunks_str (chunks : List Document) : String :=
  pyStrListPairs (chunks_data chunks)

/-- The chunk fingerprint of `get_cached_vector_store`. -/
def chunks_hash (chunks : List Document) : String :=
  sha256Hex (utf8Bytes (chunks_str chunks))

/-! ## The rerankers (`rag_utils.py`, lines 21-75)

Both rerankers score the documents, sort the (document, score) pairs by
descending score with Python's stable `sorted(..., key=itemgetter(1),
reverse=True)` — modelled by the stable `List.mergeSort` with the
non-strict comparison `b.score ≤ a.score` — truncate to `top_n`, and keep
a pair only if its score passes the optional threshold, attaching the
score as metadata key `reranker_score`.  The loop of source lines 56-61
is literally identical to the loop of lines 70-75, so both methods are
embedded through the shared `rerankPipeline`.
-/

/-- The reply of the remote reranker endpoint: HTTP status, the
`relevance_score` of each entry of the JSON `results` array (in order),
and the response text. -/
structure RerankResponse where
  status_code : Nat
  results : List ℚ
  text : String
deriving DecidableEq, Repr

/-- Stable-descending comparison used to model
`sorted(scores, key=operator.itemgetter(1), reverse=True)`. -/
def leScore (a b : Document × ℚ) : Bool := decide (b.2 ≤ a.2)

/-- `score >= self.score_threshold` guard (`None` means no filtering). -/
def passesThreshold (thr : Option ℚ) (score : ℚ) : Bool :=
  match thr with
  | none => true
  | some t => decide (t ≤ score)

/-- The output loop (source lines 56-61 and 70-75): walk the sorted,
truncated pair list, keep pairs passing the threshold, attach
`reranker_score`. -/
def rerankLoop (thr : Option ℚ) : List (Document × ℚ) → List Document
  | [] => []
  | (doc, score) :: rest =>
    if passesThreshold thr score then
      doc.setMeta "reranker_score" (.rat score) :: rerankLoop thr rest
    else
      rerankLoop thr rest

/-- Sort descending (stably), truncate to `top_n`, then filter/attach. -/
def rerankPipeline (scores : List (Document × ℚ)) (top_n : Nat) (thr : Option ℚ) :
    List Document :=
  rerankLoop thr ((scores.mergeSort leScore).take top_n)

/-- The remote reranker object (`model_url`, `api_token` and `name` have
no bearing on any claim and are omitted; `_top_n` and `score_threshold`
are the fields the algorithm reads). -/
structure ScoredExternalCrossEncoderReranker where
  top_n : Nat
  score_threshold : Option ℚ
deriving DecidableEq, Repr

/-- `ScoredExternalCrossEncoderReranker.invoke` (source lines 39-61).
The HTTP reply of `requests.post` is passed in as data.  On a 200 status
the returned `relevance_score`s are paired positionally with the
submitted documents by `zip` (which truncates to the shorter of the two
lists); on any other status the method prints the error and returns the
empty list. -/
def ScoredExternalCrossEncoderReranker.invoke
    (self : ScoredExternalCrossEncoderReranker) (documents : List Document)
    (query : String) (response : RerankResponse) : List Document :=
  if response.status_code = 200 then
    rerankPipeline (documents.zip response.results) self.top_n self.score_threshold
  else
    []

/-- `ScoredExternalCrossEncoderReranker.compress_documents` just calls
`invoke` (source lines 36-37). -/
def ScoredExternalCrossEncoderReranker.compress_documents
    (self : ScoredExternalCrossEncoderReranker) (documents : List Document)
    (query : String) (response : RerankResponse) : List Document :=
  self.invoke documents query response

/-- The local reranker object: `model.score` (the HuggingFace
cross-encoder) is modelled as an opaque-to-the-claims scoring function
from the list of (query, content) pairs to the list of scores. -/
structure ScoredCrossEncoderReranker where
  model : List (String × String) → List ℚ
  top_n : Nat
  score_threshold : Option ℚ

/-- `ScoredCrossEncoderReranker.compress_documents` (source lines 66-75). -/
def ScoredCrossEncoderReranker.compress_documents
    (self : ScoredCrossEncoderReranker) (documents : List Document)
    (query : String) : List Document :=
  rerankPipeline
    (documents.zip (self.model (documents.map fun doc => (query, doc.page_content))))
    self.top_n self.score_threshold

/-! ## `get_cached_vector_store` (source lines 77-119)

The filesystem and the Chroma index are external effects; an execution is
determined by the outcomes the environment would give to each effectful
step, passed in as a `CacheEnv`:

* `stateFileExists` — `os.path.exists(state_file_path)`;
* `readState` — opening and JSON-decoding the state file (its two
  `state.get(...)` fields, `None` when a key is missing);
* `loadStore` — `Chroma(persist_directory=..., embedding_function=...)`;
* `buildStore` — `Chroma.from_documents(chunks, embeddings, ...)`, which
  builds the fresh index (calling the embedder) and persists it;
* `writeState` — `os.makedirs` + `open(..., 'w')` + `json.dump`.

Any exception in the `try` block (reading the state file or loading the
persisted index) is caught and falls through to the rebuild path; the
build and the state write are outside any `try`, so their exceptions
propagate.  The outcome records the returned/raised value, whether
`Chroma.from_documents` was invoked (`builtFresh`), whether the state
file write was started (`writeAttempted`) and the record successfully
written, if any (`writtenState`).
-/

/-- The two fields the code reads from the decoded state JSON. -/
structure StateJson where
  embedding_model : Option String
  chunks_hash : Option String
deriving DecidableEq, Repr

structure CacheEnv (VS : Type) where
  stateFileExists : Bool
  readState : Except String StateJson
  loadStore : Except String VS
  buildStore : Except String VS
  writeState : Except String Unit

structure CacheOutcome (VS : Type) where
  result : Except String VS
  builtFresh : Bool
  writeAttempted : Bool
  writtenState : Option StateJson

/-- The cache-probe part of `get_cached_vector_store` (source lines
86-97): the `if os.path.exists ... try ... except` block.  Returns the
loaded store on a full cache hit; every failure inside the `try` (state
read or index load) and every mismatch yields `none` (fall through to
rebuild). -/
def cacheProbe {VS : Type} (embedding_model : String) (ch : String)
    (env : CacheEnv VS) : Option VS :=
  if env.stateFileExists then
    match env.readState with
    | .ok state =>
      if state.embedding_model = some embedding_model ∧ state.chunks_hash = some ch then
        match env.loadStore with
        | .ok vector_store => some vector_store
        | .error _ => none
      else none
    | .error _ => none
  else none

def get_cached_vector_store {VS : Type} (embedding_model : String)
    (chunks : List Document) (env : CacheEnv VS) : CacheOutcome VS :=
  let ch := chunks_hash chunks
  match cacheProbe embedding_model ch env with
  | some vector_store => ⟨.ok vector_store, false, false, none⟩
  | none =>
    match env.buildStore with
    | .error e => ⟨.error e, true, false, none⟩
    | .ok vector_store =>
      match env.writeState with
      | .error e => ⟨.error e, true, true, none⟩
      | .ok _ => ⟨.ok vector_store, true, true, some ⟨some embedding_model, some ch⟩⟩

/-! ## `build_rag_system` (source lines 144-209) -/

/-- The dense retriever closure (source lines 163-168):

```python
docs, scores = zip(*vector_store.similarity_search_with_relevance_scores(query, embeddings_top_k))
for doc, score in zip(docs, scores):
    doc.metadata["similarity_score"] = score
return docs
```

The similarity search outcome is passed in as the list of
(document, relevance score) pairs.  `zip(*[])` produces zero values, so
unpacking it into the two names `docs, scores` raises a `ValueError`;
with at least one result the unpacking succeeds and each document is
annotated with its `similarity_score`. -/
def vector_retriever (searchResults : List (Document × ℚ)) :
    Except String (List Document) :=
  match searchResults with
  | [] => .error "not enough values to unpack (expected 2, got 0)"
  | _ :: _ =>
    .ok (searchResults.map fun ds => ds.1.setMeta "similarity_score" (.rat ds.2))

/-- The retriever/weight assembly of `build_rag_system` (source lines
170-182): the dense retriever always participates with weight `0.25`;
when `use_bm25_reranker` is set a BM25 retriever is appended with weight
`0.75`.  The surrounding configuration parameters are taken as arguments
to show the weights do not depend on them. -/
structure RetrieverConfig where
  retrieverCount : Nat
  weights : List ℚ
deriving DecidableEq, Repr

def build_rag_system_retrievers (embedding_model : String) (embeddings_top_k : Nat)
    (use_bm25_reranker : Bool) (bm25_top_k : Nat) (chunks : List Document) :
    RetrieverConfig :=
  let retrievers := 1
  let weights : List ℚ := [0.25]
  if use_bm25_reranker then
    ⟨retrievers + 1, weights ++ [0.75]⟩
  else
    ⟨retrievers, weights⟩

/-! # Helper lemmas -/

theorem getKey_setKey_self (m : List (String × MVal)) (k : String) (v : MVal) :
    getKey (setKey m k v) k = some v := by
  induction m with
  | nil => simp [setKey, getKey]
  | cons kv rest ih =>
    rcases kv with ⟨k0, v0⟩
    by_cases h : k0 = k
    · simp [setKey, h, getKey]
    · simp [setKey, h, getKey, ih]

theorem getKey_setKey_ne (m : List (String × MVal)) (k k' : String) (v : MVal)
    (h : k' ≠ k) : getKey (setKey m k v) k' = getKey m k' := by
  induction m with
  | nil => simp [setKey, getKey, Ne.symm h]
  | cons kv rest ih =>
    rcases kv with ⟨k0, v0⟩
    by_cases h0 : k0 = k
    · subst h0
      simp [setKey, getKey, Ne.symm h]
    · simp [setKey, h0, getKey, ih]

/-- The annotation performed on each surviving (document, score) pair. -/
def attachScore (p : Document × ℚ) : Document :=
  p.1.setMeta "reranker_score" (.rat p.2)

theorem rerankLoop_eq (thr : Option ℚ) (l : List (Document × ℚ)) :
    rerankLoop thr l = (l.filter fun p => passesThreshold thr p.2).map attachScore := by
  induction l with
  | nil => rfl
  | cons p rest ih =>
    rcases p with ⟨doc, score⟩
    by_cases h : passesThreshold thr score
    · simp [rerankLoop, h, List.filter_cons, ih, attachScore]
    · simp [rerankLoop, h, List.filter_cons, ih]

theorem rerankPipeline_eq (scores : List (Document × ℚ)) (top_n : Nat) (thr : Option ℚ) :
    rerankPipeline scores top_n thr =
      (((scores.mergeSort leScore).take top_n).filter fun p => passesThreshold thr p.2).map
        attachScore := by
  simp [rerankPipeline, rerankLoop_eq]

theorem leScore_trans : ∀ (a b c : Document × ℚ), leScore a b → leScore b c → leScore a c := by
  intro a b c hab hbc
  simp only [leScore, decide_eq_true_eq] at *
  exact le_trans hbc hab

theorem leScore_total : ∀ (a b : Document × ℚ), leScore a b || leScore b a := by
  intro a b
  simp only [leScore, Bool.or_eq_true, decide_eq_true_eq]
  exact le_total b.2 a.2

/-- The output documents are pairwise in weakly descending order of their
attached `reranker_score`. -/
def SortedByRerankerScore (l : List Document) : Prop :=
  l.Pairwise fun d e => ∃ s t : ℚ,
    getKey d.metadata "reranker_score" = some (.rat s) ∧
    getKey e.metadata "reranker_score" = some (.rat t) ∧ t ≤ s

theorem rerankPipeline_sorted (scores : List (Document × ℚ)) (top_n : Nat) (thr : Option ℚ) :
    SortedByRerankerScore (rerankPipeline scores top_n thr) := by
  rw [rerankPipeline_eq]
  have hs : (scores.mergeSort leScore).Pairwise (fun a b => leScore a b) :=
    List.sorted_mergeSort leScore_trans leScore_total scores
  have h1 : (((scores.mergeSort leScore).take top_n).filter
      fun p => passesThreshold thr p.2).Pairwise (fun a b => leScore a b) :=
    List.Pairwise.sublist ((List.filter_sublist _).trans (List.take_sublist _ _)) hs
  rw [SortedByRerankerScore, List.pairwise_map]
  refine h1.imp ?_
  intro p q h
  refine ⟨p.2, q.2, ?_, ?_, ?_⟩
  · exact getKey_setKey_self _ _ _
  · exact getKey_setKey_self _ _ _
  · simpa [leScore] using h

theorem rerankPipeline_length (scores : List (Document × ℚ)) (top_n : Nat) (thr : Option ℚ) :
    (rerankPipeline scores top_n thr).length ≤ top_n := by
  rw [rerankPipeline_eq]
  simp only [List.length_map]
  refine le_trans (List.length_filter_le _ _) ?_
  rw [List.length_take]
  exact Nat.min_le_left _ _

theorem rerankPipeline_length_le (scores : List (Document × ℚ)) (top_n : Nat) (thr : Option ℚ) :
    (rerankPipeline scores top_n thr).length ≤ scores.length := by
  rw [rerankPipeline_eq]
  simp only [List.length_map]
  refine le_trans (List.length_filter_le _ _) ?_
  refine le_trans (List.take_sublist _ _).length_le ?_
  exact le_of_eq (List.mergeSort_perm scores leScore).length_eq

theorem rerankPipeline_mem (scores : List (Document × ℚ)) (top_n : Nat) (thr : Option ℚ)
    (d : Document) (hd : d ∈ rerankPipeline scores top_n thr) :
    ∃ p, p ∈ scores ∧ passesThreshold thr p.2 = true ∧ d = attachScore p := by
  rw [rerankPipeline_eq] at hd
  rcases List.mem_map.mp hd with ⟨p, hp, rfl⟩
  have h1 := List.mem_filter.mp hp
  exact ⟨p, List.mem_mergeSort.mp (List.mem_of_mem_take h1.1), h1.2, rfl⟩

theorem rerankPipeline_keeps (scores : List (Document × ℚ)) (top_n : Nat) (thr : Option ℚ)
    (p : Document × ℚ) (hp : p ∈ (scores.mergeSort leScore).take top_n)
    (hpass : passesThreshold thr p.2 = true) :
    attachScore p ∈ rerankPipeline scores top_n thr := by
  rw [rerankPipeline_eq]
  exact List.mem_map_of_mem _ (List.mem_filter.mpr ⟨hp, hpass⟩)

theorem pair_sublist_take {α : Type} {l : List α} {a b : α} {n : Nat}
    (hnd : l.Nodup) (hab : ([a, b]).Sublist l) (ha : a ∈ l.take n) (hb : b ∈ l.take n) :
    ([a, b]).Sublist (l.take n) := by
  have hsplit : l.take n ++ l.drop n = l := List.take_append_drop n l
  have hab' : ([a, b]).Sublist (l.take n ++ l.drop n) := by rw [hsplit]; exact hab
  have hnd' : (l.take n ++ l.drop n).Nodup := by rw [hsplit]; exact hnd
  have hdisj := (List.nodup_append.mp hnd').2.2
  rcases List.sublist_append_iff.mp hab' with ⟨l₁, l₂, heq, h₁, h₂⟩
  rcases l₁ with _ | ⟨x, _ | ⟨y, l₁'⟩⟩
  · -- l₂ = [a, b] would put b in the dropped part
    simp only [List.nil_append] at heq
    rw [← heq] at h₂
    exact absurd (hdisj hb (h₂.subset (by simp))) (fun hf => hf)
  · -- l₁ = [x]: then l₂ = [b] lies in the dropped part
    simp only [List.cons_append, List.nil_append, List.cons.injEq] at heq
    rcases heq with ⟨rfl, heq2⟩
    rw [← heq2] at h₂
    exact absurd (hdisj hb (h₂.subset (by simp))) (fun hf => hf)
  · -- l₁ = [x, y, ...]: forced to be exactly [a, b], inside the taken part
    simp only [List.cons_append, List.cons.injEq] at heq
    rcases heq with ⟨rfl, rfl, heq3⟩
    have h20 : l₁' = [] ∧ l₂ = [] := by
      cases l₁' with
      | nil =>
        simp only [List.nil_append] at heq3
        exact ⟨rfl, heq3.symm⟩
      | cons z zs => exact absurd heq3 (by simp)
    rcases h20 with ⟨rfl, rfl⟩
    simpa using h₁

theorem rerankPipeline_stable (scores : List (Document × ℚ)) (top_n : Nat) (thr : Option ℚ)
    (a b : Document × ℚ) (hnd : scores.Nodup) (hab : ([a, b]).Sublist scores) (heq : a.2 = b.2)
    (ha : a ∈ (scores.mergeSort leScore).take top_n)
    (hb : b ∈ (scores.mergeSort leScore).take top_n)
    (hpass : passesThreshold thr a.2 = true) :
    ([attachScore a, attachScore b]).Sublist (rerankPipeline scores top_n thr) := by
  rw [rerankPipeline_eq]
  have hle : leScore a b := by simp [leScore, heq]
  have h1 : ([a, b]).Sublist (scores.mergeSort leScore) :=
    List.pair_sublist_mergeSort leScore_trans leScore_total hle hab
  have hnd' : (scores.mergeSort leScore).Nodup :=
    ((List.mergeSort_perm scores leScore).nodup_iff).mpr hnd
  have h2 : ([a, b]).Sublist ((scores.mergeSort leScore).take top_n) :=
    pair_sublist_take hnd' h1 ha hb
  have h3 := h2.filter (fun p => passesThreshold thr p.2)
  have hpb : passesThreshold thr b.2 = true := by rw [← heq]; exact hpass
  have hfil : List.filter (fun p => passesThreshold thr p.2) [a, b] = [a, b] := by
    simp [List.filter_cons, hpass, hpb]
  rw [hfil] at h3
  exact h3.map attachScore

theorem invoke_eq_pipeline (self : ScoredExternalCrossEncoderReranker)
    (documents : List Document) (query : String) (response : RerankResponse)
    (h200 : response.status_code = 200) :
    self.invoke documents query response =
      rerankPipeline (documents.zip response.results) self.top_n self.score_threshold := by
  simp only [ScoredExternalCrossEncoderReranker.invoke, h200, if_true]

theorem invoke_eq_nil (self : ScoredExternalCrossEncoderReranker)
    (documents : List Document) (query : String) (response : RerankResponse)
    (h200 : ¬ response.status_code = 200) :
    self.invoke documents query response = [] := by
  simp only [ScoredExternalCrossEncoderReranker.invoke, h200, if_false]

theorem passesThreshold_le (thr : Option ℚ) (s t : ℚ) (ht : thr = some t)
    (h : passesThreshold thr s = true) : t ≤ s := by
  rw [ht] at h
  simpa [passesThreshold] using h

/-- Helper for concrete evaluations: a two-element list that is already
weakly descending is left unchanged by the sort. -/
theorem mergeSortPair_eq (a b : Document × ℚ) (h : leScore a b = true) :
    List.mergeSort [a, b] leScore = [a, b] :=
  List.mergeSort_of_sorted (by simp [h])

theorem zip_truncate_right {α β : Type} (l : List α) (r : List β) :
    l.zip r = l.zip (r.take l.length) := by
  induction l generalizing r with
  | nil => simp
  | cons x xs ih =>
    cases r with
    | nil => simp
    | cons y ys => simp [ih ys]

theorem zip_truncate_left {α β : Type} (l : List α) (r : List β) :
    l.zip r = (l.take r.length).zip r := by
  induction l generalizing r with
  | nil => simp
  | cons x xs ih =>
    cases r with
    | nil => simp
    | cons y ys => simp [ih ys]

/-! # Claims -/

/-- C1 (evaluation of the code at the failing scenario of the claim): on
an HTTP 500 reply with a non-empty document list,
`ScoredExternalCrossEncoderReranker.invoke` returns the plain empty list —
no error of any kind is raised — and this is exactly the value produced
for a genuine empty result (status 200 with an empty `results` array), so
the two cases are indistinguishable to the caller. -/
theorem C1_non200_returns_plain_empty_list :
    ScoredExternalCrossEncoderReranker.invoke ⟨5, none⟩
        [⟨"cats are mammals", [("source", .str "a.txt")]⟩] "are cats mammals?"
        ⟨500, [0.9], "Internal Server Error"⟩ = [] ∧
    ScoredExternalCrossEncoderReranker.invoke ⟨5, none⟩
        [⟨"cats are mammals", [("source", .str "a.txt")]⟩] "are cats mammals?"
        ⟨200, [], ""⟩ = [] := by
  constructor
  · rfl
  · simp [ScoredExternalCrossEncoderReranker.invoke, rerankPipeline, rerankLoop]

/-- C4: the output of `rerank` — `ScoredExternalCrossEncoderReranker.invoke`
and `ScoredCrossEncoderReranker.compress_documents` alike — is sorted in
descending order of final score, contains at most `top_n` documents, never
contains a document scoring below a set `score_threshold`, keeps documents
scoring exactly the threshold (the guard is `score >= threshold`), and
breaks score ties stably by input order: two equally-scored pairs that are
in input order and both survive appear in the output in that order. -/
theorem C4_rerank_sorted_bounded_thresholded :
    (∀ (self : ScoredExternalCrossEncoderReranker) (documents : List Document)
        (query : String) (response : RerankResponse),
      SortedByRerankerScore (self.invoke documents query response) ∧
      (self.invoke documents query response).length ≤ self.top_n ∧
      (∀ d ∈ self.invoke documents query response, ∀ t : ℚ,
        self.score_threshold = some t →
        ∃ s : ℚ, getKey d.metadata "reranker_score" = some (.rat s) ∧ t ≤ s))
    ∧
    (∀ (self : ScoredCrossEncoderReranker) (documents : List Document) (query : String),
      SortedByRerankerScore (self.compress_documents documents query) ∧
      (self.compress_documents documents query).length ≤ self.top_n ∧
      (∀ d ∈ self.compress_documents documents query, ∀ t : ℚ,
        self.score_threshold = some t →
        ∃ s : ℚ, getKey d.metadata "reranker_score" = some (.rat s) ∧ t ≤ s))
    ∧
    (∀ (self : ScoredExternalCrossEncoderReranker) (documents : List Document)
        (query : String) (response : RerankResponse) (p : Document × ℚ),
      response.status_code = 200 →
      p ∈ ((documents.zip response.results).mergeSort leScore).take self.top_n →
      passesThreshold self.score_threshold p.2 = true →
      attachScore p ∈ self.invoke documents query response)
    ∧
    (∀ (self : ScoredCrossEncoderReranker) (documents : List Document) (query : String)
        (p : Document × ℚ),
      p ∈ ((documents.zip
          (self.model (documents.map fun doc => (query, doc.page_content)))).mergeSort
          leScore).take self.top_n →
      passesThreshold self.score_threshold p.2 = true →
      attachScore p ∈ self.compress_documents documents query)
    ∧
    (∀ (self : ScoredExternalCrossEncoderReranker) (documents : List Document)
        (query : String) (response : RerankResponse) (a b : Document × ℚ),
      response.status_code = 200 →
      (documents.zip response.results).Nodup →
      ([a, b]).Sublist (documents.zip response.results) →
      a.2 = b.2 →
      a ∈ ((documents.zip response.results).mergeSort leScore).take self.top_n →
      b ∈ ((documents.zip response.results).mergeSort leScore).take self.top_n →
      passesThreshold self.score_threshold a.2 = true →
      ([attachScore a, attachScore b]).Sublist (self.invoke documents query response))
    ∧
    (∀ (self : ScoredCrossEncoderReranker) (documents : List Document) (query : String)
        (a b : Document × ℚ),
      (documents.zip (self.model (documents.map fun doc => (query, doc.page_content)))).Nodup →
      ([a, b]).Sublist
        (documents.zip (self.model (documents.map fun doc => (query, doc.page_content)))) →
      a.2 = b.2 →
      a ∈ ((documents.zip
          (self.model (documents.map fun doc => (query, doc.page_content)))).mergeSort
          leScore).take self.top_n →
      b ∈ ((documents.zip
          (self.model (documents.map fun doc => (query, doc.page_content)))).mergeSort
          leScore).take self.top_n →
      passesThreshold self.score_threshold a.2 = true →
      ([attachScore a, attachScore b]).Sublist (self.compress_documents documents query)) := by
  have hthr : ∀ (out : List Document) (scores : List (Document × ℚ)) (top_n : Nat)
      (thr : Option ℚ), out = rerankPipeline scores top_n thr →
      ∀ d ∈ out, ∀ t : ℚ, thr = some t →
      ∃ s : ℚ, getKey d.metadata "reranker_score" = some (.rat s) ∧ t ≤ s := by
    intro out scores top_n thr hout d hd t ht
    subst hout
    rcases rerankPipeline_mem _ _ _ d hd with ⟨p, _, hpass, rfl⟩
    exact ⟨p.2, getKey_setKey_self _ _ _, passesThreshold_le _ _ _ ht hpass⟩
  refine ⟨?_, ?_, ?_, ?_, ?_, ?_⟩
  · intro self documents query response
    by_cases h200 : response.status_code = 200
    · rw [invoke_eq_pipeline _ _ _ _ h200]
      exact ⟨rerankPipeline_sorted _ _ _, rerankPipeline_length _ _ _,
        hthr _ _ _ _ rfl⟩
    · rw [invoke_eq_nil _ _ _ _ h200]
      exact ⟨List.Pairwise.nil, Nat.zero_le _, by simp⟩
  · intro self documents query
    exact ⟨rerankPipeline_sorted _ _ _, rerankPipeline_length _ _ _, hthr _ _ _ _ rfl⟩
  · intro self documents query response p h200 hp hpass
    rw [invoke_eq_pipeline _ _ _ _ h200]
    exact rerankPipeline_keeps _ _ _ _ hp hpass
  · intro self documents query p hp hpass
    exact rerankPipeline_keeps _ _ _ _ hp hpass
  · intro self documents query response a b h200 hnd hab heq ha hb hpass
    rw [invoke_eq_pipeline _ _ _ _ h200]
    exact rerankPipeline_stable _ _ _ _ _ hnd hab heq ha hb hpass
  · intro self documents query a b hnd hab heq ha hb hpass
    exact rerankPipeline_stable _ _ _ _ _ hnd hab heq ha hb hpass

/-- C4 witness: a concrete two-document tie at score 1, both surviving,
stays in input order in the output. -/
theorem C4_rerank_witness :
    ([((⟨"alpha", []⟩ : Document), (1 : ℚ)), (⟨"beta", []⟩, 1)].Nodup) ∧
    (([attachScore (⟨"alpha", []⟩, (1 : ℚ)), attachScore (⟨"beta", []⟩, 1)]).Sublist
      (ScoredExternalCrossEncoderReranker.invoke ⟨5, none⟩
        [⟨"alpha", []⟩, ⟨"beta", []⟩] "q" ⟨200, [1, 1], "ok"⟩)) := by
  have hm : List.mergeSort
      [((⟨"alpha", []⟩ : Document), (1 : ℚ)), (⟨"beta", []⟩, 1)] leScore =
      [((⟨"alpha", []⟩ : Document), (1 : ℚ)), (⟨"beta", []⟩, 1)] :=
    mergeSortPair_eq _ _ (by decide)
  refine ⟨by decide, ?_⟩
  refine C4_rerank_sorted_bounded_thresholded.2.2.2.2.1 ⟨5, none⟩
    [⟨"alpha", []⟩, ⟨"beta", []⟩] "q" ⟨200, [1, 1], "ok"⟩
    (⟨"alpha", []⟩, 1) (⟨"beta", []⟩, 1) rfl (by decide)
    (List.Sublist.refl _) rfl ?_ ?_ rfl
  · rw [show ([(⟨"alpha", []⟩ : Document), ⟨"beta", []⟩].zip
        (⟨200, [1, 1], "ok"⟩ : RerankResponse).results) =
        [((⟨"alpha", []⟩ : Document), (1 : ℚ)), (⟨"beta", []⟩, 1)] from rfl, hm]
    decide
  · rw [show ([(⟨"alpha", []⟩ : Document), ⟨"beta", []⟩].zip
        (⟨200, [1, 1], "ok"⟩ : RerankResponse).results) =
        [((⟨"alpha", []⟩ : Document), (1 : ℚ)), (⟨"beta", []⟩, 1)] from rfl, hm]
    decide

/-- C7: every document surviving either reranker is one of the input
documents with `reranker_score` written into its metadata; the value of
every other metadata key — in particular a previously attached
`similarity_score` — is unchanged. -/
theorem C7_rerank_attaches_score_nondestructively :
    (∀ (self : ScoredExternalCrossEncoderReranker) (documents : List Document)
        (query : String) (response : RerankResponse),
      ∀ d ∈ self.invoke documents query response,
      ∃ d₀ s, d₀ ∈ documents ∧ d = d₀.setMeta "reranker_score" (.rat s) ∧
        getKey d.metadata "reranker_score" = some (.rat s) ∧
        ∀ k, k ≠ "reranker_score" → getKey d.metadata k = getKey d₀.metadata k)
    ∧
    (∀ (self : ScoredCrossEncoderReranker) (documents : List Document) (query : String),
      ∀ d ∈ self.compress_documents documents query,
      ∃ d₀ s, d₀ ∈ documents ∧ d = d₀.setMeta "reranker_score" (.rat s) ∧
        getKey d.metadata "reranker_score" = some (.rat s) ∧
        ∀ k, k ≠ "reranker_score" → getKey d.metadata k = getKey d₀.metadata k) := by
  have main : ∀ (documents : List Document) (scores : List ℚ) (top_n : Nat)
      (thr : Option ℚ), ∀ d ∈ rerankPipeline (documents.zip scores) top_n thr,
      ∃ d₀ s, d₀ ∈ documents ∧ d = d₀.setMeta "reranker_score" (.rat s) ∧
        getKey d.metadata "reranker_score" = some (.rat s) ∧
        ∀ k, k ≠ "reranker_score" → getKey d.metadata k = getKey d₀.metadata k := by
    intro documents scores top_n thr d hd
    rcases rerankPipeline_mem _ _ _ d hd with ⟨p, hmem, _, rfl⟩
    rcases p with ⟨d₀, s⟩
    refine ⟨d₀, s, (List.of_mem_zip hmem).1, rfl, getKey_setKey_self _ _ _, ?_⟩
    intro k hk
    exact getKey_setKey_ne _ _ _ _ hk
  constructor
  · intro self documents query response d hd
    by_cases h200 : response.status_code = 200
    · rw [invoke_eq_pipeline _ _ _ _ h200] at hd
      exact main _ _ _ _ d hd
    · rw [invoke_eq_nil _ _ _ _ h200] at hd
      exact absurd hd (List.not_mem_nil d)
  · intro self documents query d hd
    exact main _ _ _ _ d hd

/-- C7 witness: one document carrying a `similarity_score`, reranked with
score 2; the output document keeps the similarity score untouched. -/
theorem C7_rerank_witness :
    ((⟨"x", [("similarity_score", MVal.rat 1), ("reranker_score", MVal.rat 2)]⟩ : Document) ∈
      ScoredExternalCrossEncoderReranker.invoke ⟨5, none⟩
        [⟨"x", [("similarity_score", MVal.rat 1)]⟩] "q" ⟨200, [2], ""⟩) ∧
    (∃ d₀ s, d₀ ∈ [(⟨"x", [("similarity_score", MVal.rat 1)]⟩ : Document)] ∧
      (⟨"x", [("similarity_score", MVal.rat 1), ("reranker_score", MVal.rat 2)]⟩ : Document) =
        d₀.setMeta "reranker_score" (.rat s) ∧
      getKey (⟨"x", [("similarity_score", MVal.rat 1), ("reranker_score", MVal.rat 2)]⟩ :
        Document).metadata "reranker_score" = some (.rat s) ∧
      ∀ k, k ≠ "reranker_score" →
        getKey (⟨"x", [("similarity_score", MVal.rat 1), ("reranker_score", MVal.rat 2)]⟩ :
          Document).metadata k =
        getKey d₀.metadata k) := by
  have hmem : (⟨"x", [("similarity_score", MVal.rat 1), ("reranker_score", MVal.rat 2)]⟩ :
      Document) ∈ ScoredExternalCrossEncoderReranker.invoke ⟨5, none⟩
        [⟨"x", [("similarity_score", MVal.rat 1)]⟩] "q" ⟨200, [2], ""⟩ := by
    rw [invoke_eq_pipeline _ _ _ _ rfl]
    simp [rerankPipeline, rerankLoop, passesThreshold, Document.setMeta, setKey]
  exact ⟨hmem, C7_rerank_attaches_score_nondestructively.1 ⟨5, none⟩
    [⟨"x", [("similarity_score", MVal.rat 1)]⟩] "q" ⟨200, [2], ""⟩ _ hmem⟩

/-- C9: the dense retriever raises (`zip(*...)` unpacking fails with a
`ValueError`) exactly when the similarity search returns zero results, and
returns normally (the documents annotated with `similarity_score`) exactly
when it returns at least one. -/
theorem C9_vector_retriever_empty_search_raises (searchResults : List (Document × ℚ)) :
    ((∃ e, vector_retriever searchResults = .error e) ↔ searchResults = []) ∧
    ((∃ docs, vector_retriever searchResults = .ok docs) ↔ searchResults ≠ []) := by
  cases searchResults <;> simp [vector_retriever]

/-- C10: with a 200 response whose `results` array is shorter than the
document list, the positional `zip` silently truncates: the reply is
processed identically to one truncated at `len(documents)` (extra results
ignored), every output document arises from one of the first
`len(results)` documents, and the output size is bounded by both lengths —
all without any error being raised. -/
theorem C10_positional_zip_truncation :
    ∀ (self : ScoredExternalCrossEncoderReranker) (documents : List Document)
      (query : String) (status : Nat) (results : List ℚ) (text text' : String),
      status = 200 →
      (ScoredExternalCrossEncoderReranker.invoke self documents query ⟨status, results, text⟩ =
        ScoredExternalCrossEncoderReranker.invoke self documents query
          ⟨200, results.take documents.length, text'⟩) ∧
      (∀ d ∈ ScoredExternalCrossEncoderReranker.invoke self documents query
          ⟨status, results, text⟩,
        ∃ p, p ∈ (documents.take results.length).zip results ∧
          passesThreshold self.score_threshold p.2 = true ∧ d = attachScore p) ∧
      (ScoredExternalCrossEncoderReranker.invoke self documents query
          ⟨status, results, text⟩).length ≤ min documents.length results.length := by
  intro self documents query status results text text' h200
  subst h200
  refine ⟨?_, ?_, ?_⟩
  · rw [invoke_eq_pipeline _ _ _ _ rfl, invoke_eq_pipeline _ _ _ _ rfl]
    show rerankPipeline (documents.zip results) _ _ =
      rerankPipeline (documents.zip (results.take documents.length)) _ _
    rw [← zip_truncate_right]
  · intro d hd
    rw [invoke_eq_pipeline _ _ _ _ rfl] at hd
    rcases rerankPipeline_mem _ _ _ d hd with ⟨p, hmem, hpass, rfl⟩
    rw [zip_truncate_left] at hmem
    exact ⟨p, hmem, hpass, rfl⟩
  · rw [invoke_eq_pipeline _ _ _ _ rfl]
    refine le_trans (rerankPipeline_length_le _ _ _) ?_
    rw [List.length_zip]

/-- C10 witness: two documents, one returned score: the second document is
dropped without error and the output handles only the first. -/
theorem C10_truncation_witness :
    (200 : Nat) = 200 ∧
    ScoredExternalCrossEncoderReranker.invoke ⟨5, none⟩
        [⟨"alpha", []⟩, ⟨"beta", []⟩] "q" ⟨200, [3], "two docs, one score"⟩ =
      ScoredExternalCrossEncoderReranker.invoke ⟨5, none⟩
        [⟨"alpha", []⟩, ⟨"beta", []⟩] "q" ⟨200, [3], ""⟩ ∧
    (ScoredExternalCrossEncoderReranker.invoke ⟨5, none⟩
        [⟨"alpha", []⟩, ⟨"beta", []⟩] "q" ⟨200, [3], "two docs, one score"⟩).length ≤
      min 2 1 := by
  have h := C10_positional_zip_truncation ⟨5, none⟩ [⟨"alpha", []⟩, ⟨"beta", []⟩] "q"
    200 [3] "two docs, one score" "" rfl
  exact ⟨rfl, h.1, h.2.2⟩

/-- C8: `build_rag_system` assembles the retrievers with a fixed weight
split — dense always 0.25, BM25 (when enabled) 0.75 — independent of every
configuration parameter. -/
theorem C8_fixed_fusion_weights (embedding_model : String) (embeddings_top_k : Nat)
    (use_bm25_reranker : Bool) (bm25_top_k : Nat) (chunks : List Document) :
    (build_rag_system_retrievers embedding_model embeddings_top_k use_bm25_reranker
        bm25_top_k chunks).weights =
      (if use_bm25_reranker then [(0.25 : ℚ), 0.75] else [(0.25 : ℚ)]) ∧
    (build_rag_system_retrievers embedding_model embeddings_top_k use_bm25_reranker
        bm25_top_k chunks).retrieverCount = (if use_bm25_reranker then 2 else 1) := by
  cases use_bm25_reranker <;> simp [build_rag_system_retrievers]

theorem cacheProbe_eq_some {VS : Type} (em ch : String) (env : CacheEnv VS) (vs : VS) :
    cacheProbe em ch env = some vs ↔
      env.stateFileExists = true ∧ ∃ st, env.readState = .ok st ∧
        st.embedding_model = some em ∧ st.chunks_hash = some ch ∧
        env.loadStore = .ok vs := by
  rcases env with ⟨ex, rs, ls, bs, ws⟩
  cases ex
  · simp [cacheProbe]
  · cases rs with
    | error e => simp [cacheProbe]
    | ok st =>
      by_cases hc : st.embedding_model = some em ∧ st.chunks_hash = some ch
      · cases ls with
        | error e2 => simp [cacheProbe, hc]
        | ok v => simp [cacheProbe, hc]
      · simp only [not_and] at hc
        by_cases h1 : st.embedding_model = some em
        · simp [cacheProbe, h1, hc h1]
        · simp [cacheProbe, h1]

theorem gcvs_hit {VS : Type} (em : String) (chunks : List Document) (env : CacheEnv VS)
    (vs : VS) (h : cacheProbe em (chunks_hash chunks) env = some vs) :
    get_cached_vector_store em chunks env = ⟨.ok vs, false, false, none⟩ := by
  simp [get_cached_vector_store, h]

theorem gcvs_miss_build_error {VS : Type} (em : String) (chunks : List Document)
    (env : CacheEnv VS) (e : String) (h : cacheProbe em (chunks_hash chunks) env = none)
    (hb : env.buildStore = .error e) :
    get_cached_vector_store em chunks env = ⟨.error e, true, false, none⟩ := by
  simp [get_cached_vector_store, h, hb]

theorem gcvs_miss_write_error {VS : Type} (em : String) (chunks : List Document)
    (env : CacheEnv VS) (vs : VS) (e : String)
    (h : cacheProbe em (chunks_hash chunks) env = none)
    (hb : env.buildStore = .ok vs) (hw : env.writeState = .error e) :
    get_cached_vector_store em chunks env = ⟨.error e, true, true, none⟩ := by
  simp [get_cached_vector_store, h, hb, hw]

theorem gcvs_miss_ok {VS : Type} (em : String) (chunks : List Document)
    (env : CacheEnv VS) (vs : VS) (h : cacheProbe em (chunks_hash chunks) env = none)
    (hb : env.buildStore = .ok vs) (hw : env.writeState = .ok ()) :
    get_cached_vector_store em chunks env =
      ⟨.ok vs, true, true, some ⟨some em, some (chunks_hash chunks)⟩⟩ := by
  simp [get_cached_vector_store, h, hb, hw]

theorem gcvs_miss_builtFresh {VS : Type} (em : String) (chunks : List Document)
    (env : CacheEnv VS) (h : cacheProbe em (chunks_hash chunks) env = none) :
    (get_cached_vector_store em chunks env).builtFresh = true := by
  cases hb : env.buildStore with
  | error e => rw [gcvs_miss_build_error _ _ _ _ h hb]
  | ok vs =>
    cases hw : env.writeState with
    | error e => rw [gcvs_miss_write_error _ _ _ _ _ h hb hw]
    | ok u => rw [gcvs_miss_ok _ _ _ _ h hb hw]

/-- C3: the persisted index is loaded and returned without rebuilding
exactly when the state file exists, is readable, both its fields equal
the current (embedding model, chunk fingerprint) pair, and the persisted
index loads; in every other case (any read or load failure degrading to a
miss) `Chroma.from_documents` is invoked, and — when the build and the
state write succeed — the fresh store is returned and a new state record
with the current pair is written. -/
theorem C3_cache_hit_iff {VS : Type} (embedding_model : String) (chunks : List Document)
    (env : CacheEnv VS) :
    ((get_cached_vector_store embedding_model chunks env).builtFresh = false ↔
      env.stateFileExists = true ∧ ∃ st, env.readState = .ok st ∧
        st.embedding_model = some embedding_model ∧
        st.chunks_hash = some (chunks_hash chunks) ∧
        ∃ vs, env.loadStore = .ok vs) ∧
    (∀ vs, env.loadStore = .ok vs →
      (get_cached_vector_store embedding_model chunks env).builtFresh = false →
      (get_cached_vector_store embedding_model chunks env).result = .ok vs) ∧
    (∀ vs, env.buildStore = .ok vs → env.writeState = .ok () →
      (get_cached_vector_store embedding_model chunks env).builtFresh = true →
      (get_cached_vector_store embedding_model chunks env).result = .ok vs ∧
      (get_cached_vector_store embedding_model chunks env).writtenState =
        some ⟨some embedding_model, some (chunks_hash chunks)⟩ ∧
      (get_cached_vector_store embedding_model chunks env).writeAttempted = true) := by
  refine ⟨?_, ?_, ?_⟩
  · cases hp : cacheProbe embedding_model (chunks_hash chunks) env with
    | some vs =>
      rw [gcvs_hit _ _ _ _ hp]
      rcases (cacheProbe_eq_some _ _ _ _).mp hp with ⟨h1, st, h2, h3, h4, h5⟩
      exact iff_of_true rfl ⟨h1, st, h2, h3, h4, vs, h5⟩
    | none =>
      constructor
      · intro hf
        rw [gcvs_miss_builtFresh _ _ _ hp] at hf
        cases hf
      · rintro ⟨h1, st, h2, h3, h4, vs, h5⟩
        have h6 := (cacheProbe_eq_some embedding_model (chunks_hash chunks) env vs).mpr
          ⟨h1, st, h2, h3, h4, h5⟩
        rw [h6] at hp
        cases hp
  · intro vs hls hf
    cases hp : cacheProbe embedding_model (chunks_hash chunks) env with
    | some vs' =>
      rcases (cacheProbe_eq_some _ _ _ _).mp hp with ⟨h1, st, h2, h3, h4, h5⟩
      rw [hls] at h5
      injection h5 with h6
      rw [gcvs_hit _ _ _ _ hp, h6]
    | none =>
      rw [gcvs_miss_builtFresh _ _ _ hp] at hf
      cases hf
  · intro vs hb hw hf
    cases hp : cacheProbe embedding_model (chunks_hash chunks) env with
    | some vs' =>
      rw [gcvs_hit _ _ _ _ hp] at hf
      cases hf
    | none =>
      rw [gcvs_miss_ok _ _ _ _ hp hb hw]
      exact ⟨rfl, rfl, rfl⟩

/-- A concrete environment realising a full cache hit. -/
def envHit : CacheEnv Nat :=
  ⟨true, .ok ⟨some "model", some (chunks_hash [])⟩, .ok 1, .ok 2, .ok ()⟩

/-- C3 witness: on `envHit` the store is loaded, not rebuilt. -/
theorem C3_cache_witness :
    envHit.loadStore = .ok 1 ∧
    (get_cached_vector_store "model" [] envHit).builtFresh = false ∧
    (get_cached_vector_store "model" [] envHit).result = .ok 1 := by
  have h := C3_cache_hit_iff "model" [] envHit
  have hf : (get_cached_vector_store "model" [] envHit).builtFresh = false :=
    h.1.mpr ⟨rfl, ⟨some "model", some (chunks_hash [])⟩, rfl, rfl, rfl, 1, rfl⟩
  exact ⟨rfl, hf, h.2.1 1 rfl hf⟩

/-- C6: on every execution in which the fresh build/persist step would
fail, the state-file write is never started and no state record is
written; the on-disk record is untouched. -/
theorem C6_no_state_write_on_build_failure {VS : Type} (embedding_model : String)
    (chunks : List Document) (env : CacheEnv VS) (e : String)
    (hb : env.buildStore = .error e) :
    (get_cached_vector_store embedding_model chunks env).writeAttempted = false ∧
    (get_cached_vector_store embedding_model chunks env).writtenState = none := by
  cases hp : cacheProbe embedding_model (chunks_hash chunks) env with
  | some vs => rw [gcvs_hit _ _ _ _ hp]; exact ⟨rfl, rfl⟩
  | none => rw [gcvs_miss_build_error _ _ _ _ hp hb]; exact ⟨rfl, rfl⟩

/-- A concrete environment whose build step fails. -/
def envBuildErr : CacheEnv Nat :=
  ⟨false, .error "no state file", .error "no store", .error "embedder boom", .ok ()⟩

/-- C6 witness: with a failing build, nothing is written. -/
theorem C6_witness :
    envBuildErr.buildStore = .error "embedder boom" ∧
    (get_cached_vector_store "m" [] envBuildErr).writeAttempted = false ∧
    (get_cached_vector_store "m" [] envBuildErr).writtenState = none := by
  have h := C6_no_state_write_on_build_failure "m" [] envBuildErr "embedder boom" rfl
  exact ⟨rfl, h.1, h.2⟩

/-- C5 (amended): a failing build on the miss path is fatal and the error
reaches the caller unmodified; conversely every error the function raises
originates in the build or in the subsequent state write, so all errors of
the cache probe — state-record reads and cached-index loads alike — are
swallowed and degrade to a cache miss. -/
theorem C5_build_errors_fatal_probe_errors_swallowed {VS : Type}
    (embedding_model : String) (chunks : List Document) (env : CacheEnv VS) :
    (∀ e, env.buildStore = .error e →
      (get_cached_vector_store embedding_model chunks env).builtFresh = true →
      (get_cached_vector_store embedding_model chunks env).result = .error e) ∧
    (∀ e, (get_cached_vector_store embedding_model chunks env).result = .error e →
      env.buildStore = .error e ∨
      (∃ vs, env.buildStore = .ok vs ∧ env.writeState = .error e)) := by
  constructor
  · intro e hb hf
    cases hp : cacheProbe embedding_model (chunks_hash chunks) env with
    | some vs =>
      rw [gcvs_hit _ _ _ _ hp] at hf
      cases hf
    | none => rw [gcvs_miss_build_error _ _ _ _ hp hb]
  · intro e hr
    cases hp : cacheProbe embedding_model (chunks_hash chunks) env with
    | some vs =>
      rw [gcvs_hit _ _ _ _ hp] at hr
      cases hr
    | none =>
      cases hb : env.buildStore with
      | error e2 =>
        rw [gcvs_miss_build_error _ _ _ _ hp hb] at hr
        injection hr with h6
        subst h6
        exact Or.inl rfl
      | ok vs =>
        cases hw : env.writeState with
        | error e2 =>
          rw [gcvs_miss_write_error _ _ _ _ _ hp hb hw] at hr
          injection hr with h6
          subst h6
          exact Or.inr ⟨vs, rfl, rfl⟩
        | ok u =>
          rw [gcvs_miss_ok _ _ _ _ hp hb hw] at hr
          cases hr

/-- C5 witness: a failing build propagates its own error to the caller. -/
theorem C5_witness :
    envBuildErr.buildStore = .error "embedder boom" ∧
    (get_cached_vector_store "m" [] envBuildErr).result = .error "embedder boom" := by
  refine ⟨rfl, ?_⟩
  refine (C5_build_errors_fatal_probe_errors_swallowed "m" [] envBuildErr).1
    "embedder boom" rfl ?_
  exact gcvs_miss_builtFresh _ _ _ (by simp [cacheProbe, envBuildErr])

/-- A concrete environment where the state file exists, is readable and
matches, but loading the persisted index fails. -/
def envLoadErr : CacheEnv Nat :=
  ⟨true, .ok ⟨some "model", some (chunks_hash [])⟩, .error "index load failed", .ok 7, .ok ()⟩

/-- C5 counterexample: an error that is neither a build/persist error nor
a state-record READ error — the cached-index LOAD fails — is swallowed:
the state record was read successfully and matches, yet the function
quietly rebuilds and returns the fresh store, refuting the claim that
only state-record read errors are swallowed. -/
theorem C5_counterexample_load_error_swallowed :
    envLoadErr.readState = .ok ⟨some "model", some (chunks_hash [])⟩ ∧
    envLoadErr.loadStore = .error "index load failed" ∧
    (get_cached_vector_store "model" [] envLoadErr).builtFresh = true ∧
    (get_cached_vector_store "model" [] envLoadErr).result = .ok 7 := by
  have hp : cacheProbe "model" (chunks_hash []) envLoadErr = none := by
    simp [cacheProbe, envLoadErr]
  refine ⟨rfl, rfl, gcvs_miss_builtFresh _ _ _ hp, ?_⟩
  rw [gcvs_miss_ok _ _ _ _ hp rfl rfl]

/-! ## C2: the chunk fingerprint

The counterexample below shows the claim's representation-independence is
false (the hash input contains `str(metadata)`, which follows dict
insertion order).  The amended claim is proved in two parts: the
fingerprint is a pure function of the ordered (content, metadata) pair
sequence, and on a clean character domain (printable ASCII free of
quotes and backslashes, string-valued metadata) the serialized hash input
is injective, so any difference in content, metadata or order changes the
hash input.
-/

/-- Characters for which CPython `repr` needs neither quote switching nor
escaping: printable ASCII without either quote and without backslash. -/
def cleanChar (c : Char) : Bool :=
  decide (c ≠ '\'' ∧ c ≠ '"' ∧ c ≠ '\\' ∧ 32 ≤ c.toNat ∧ c.toNat ≤ 126)

def cleanStr (s : String) : Bool := s.data.all cleanChar

/-- Clean metadata values: clean strings. -/
def cleanVal : MVal → Bool
  | .str s => cleanStr s
  | _ => false

def cleanMeta (m : List (String × MVal)) : Bool :=
  m.all fun kv => cleanStr kv.1 && cleanVal kv.2

def cleanChunks (l : List Document) : Bool :=
  l.all fun d => cleanStr d.page_content && cleanMeta d.metadata

/-- Characters that survive `repr` unescaped inside a double-quoted
string: everything printable except `"` and backslash (single quotes are
allowed — this is the character set of a rendered dict). -/
def dqChar (c : Char) : Bool :=
  decide (c ≠ '"' ∧ c ≠ '\\' ∧ 32 ≤ c.toNat ∧ c.toNat ≠ 127)

def lbrace : Char := Char.ofNat 123

def rbrace : Char := Char.ofNat 125

theorem dqChar_of_clean (c : Char) (h : cleanChar c = true) : dqChar c = true := by
  simp only [cleanChar, decide_eq_true_eq] at h
  simp only [dqChar, decide_eq_true_eq]
  obtain ⟨h1, h2, h3, h4, h5⟩ := h
  exact ⟨h2, h3, h4, by omega⟩

theorem pyEscapeChar_dq (c : Char) (h : dqChar c = true) :
    pyEscapeChar '"' c = [c] := by
  simp only [dqChar, decide_eq_true_eq] at h
  obtain ⟨h1, h2, h3, h4⟩ := h
  have ht : ¬ c = '\t' := fun hh => absurd h3 (by subst hh; decide)
  have hn : ¬ c = '\n' := fun hh => absurd h3 (by subst hh; decide)
  have hr : ¬ c = '\r' := fun hh => absurd h3 (by subst hh; decide)
  have hlo : ¬ (c.toNat < 32 ∨ c.toNat = 127) := by omega
  simp [pyEscapeChar, h1, h2, ht, hn, hr, hlo]

theorem pyEscapeChar_clean (q c : Char) (hc : cleanChar c = true)
    (hq : q = '\'' ∨ q = '"') : pyEscapeChar q c = [c] := by
  simp only [cleanChar, decide_eq_true_eq] at hc
  obtain ⟨h1, h2, h3, h4, h5⟩ := hc
  have hcq : ¬ c = q := by rcases hq with rfl | rfl
                           · exact h1
                           · exact h2
  have ht : ¬ c = '\t' := fun hh => absurd h4 (by subst hh; decide)
  have hn : ¬ c = '\n' := fun hh => absurd h4 (by subst hh; decide)
  have hr : ¬ c = '\r' := fun hh => absurd h4 (by subst hh; decide)
  have hlo : ¬ (c.toNat < 32 ∨ c.toNat = 127) := by omega
  simp [pyEscapeChar, h3, hcq, ht, hn, hr, hlo]

theorem flatMap_escape_clean (q : Char) (l : List Char) (hq : q = '\'' ∨ q = '"')
    (h : l.all cleanChar = true) : l.flatMap (pyEscapeChar q) = l := by
  induction l with
  | nil => rfl
  | cons c t ih =>
    simp only [List.all_cons, Bool.and_eq_true] at h
    simp [pyEscapeChar_clean q c h.1 hq, ih h.2]

theorem flatMap_escape_dq (l : List Char) (h : ∀ c ∈ l, dqChar c = true) :
    l.flatMap (pyEscapeChar '"') = l := by
  induction l with
  | nil => rfl
  | cons c t ih =>
    simp [pyEscapeChar_dq c (h c (List.mem_cons_self c t)),
      ih fun c hc => h c (List.mem_cons_of_mem _ hc)]

theorem cleanStr_no_quote (s : String) (h : cleanStr s = true) :
    '\'' ∉ s.data ∧ '"' ∉ s.data := by
  rw [cleanStr, List.all_eq_true] at h
  constructor <;> intro hm <;> have h2 := h _ hm <;> simp [cleanChar] at h2

theorem pyQuote_of_no_single (s : String) (h : '\'' ∉ s.data) : pyQuote s = '\'' := by
  simp [pyQuote, h]

theorem pyQuote_of_single_no_double (s : String) (h1 : '\'' ∈ s.data)
    (h2 : '"' ∉ s.data) : pyQuote s = '"' := by
  simp [pyQuote, h1, h2]

theorem pyReprStr_clean (s : String) (h : cleanStr s = true) :
    (pyReprStr s).data = '\'' :: (s.data ++ ['\'']) := by
  have hq := pyQuote_of_no_single s (cleanStr_no_quote s h).1
  simp only [pyReprStr, hq]
  show '\'' :: s.data.flatMap (pyEscapeChar '\'') ++ ['\''] = _
  rw [flatMap_escape_clean '\'' s.data (Or.inl rfl) h]
  simp

theorem data_lbrace : ("\x7b" : String).data = [lbrace] := rfl

theorem data_rbrace : ("\x7d" : String).data = [rbrace] := rfl

theorem data_colon_space : (": " : String).data = [':', ' '] := rfl

theorem data_comma_space : (", " : String).data = [',', ' '] := rfl

theorem pyStrDict_data (m : List (String × MVal)) :
    (pyStrDict m).data = lbrace :: ((dictItems m).data ++ [rbrace]) := by
  show ("\x7b" ++ dictItems m ++ "\x7d").data = _
  rw [String.data_append, String.data_append, data_lbrace, data_rbrace]
  rfl

/-- Tail of the rendered dict item list: empty, or a comma-space followed
by the rendering of the rest. -/
def tailSepD : List (String × MVal) → String
  | [] => ""
  | kv :: rest => ", " ++ dictItems (kv :: rest)

theorem dictItems_cons (kv : String × MVal) (t : List (String × MVal)) :
    dictItems (kv :: t) = pyReprStr kv.1 ++ ": " ++ pyReprVal kv.2 ++ tailSepD t := by
  cases t with
  | nil => simp [dictItems, tailSepD]
  | cons kv' r => simp [dictItems, tailSepD, String.append_assoc]

def tailSepL : List (String × String) → String
  | [] => ""
  | p :: rest => ", " ++ listItems (p :: rest)

theorem listItems_cons (p : String × String) (t : List (String × String)) :
    listItems (p :: t) = pyReprPair p ++ tailSepL t := by
  cases t with
  | nil => simp [listItems, tailSepL]
  | cons p' r => simp [listItems, tailSepL, String.append_assoc]

theorem cleanMeta_cons (kv : String × MVal) (t : List (String × MVal))
    (h : cleanMeta (kv :: t) = true) :
    cleanStr kv.1 = true ∧ (∃ s, kv.2 = .str s ∧ cleanStr s = true) ∧
      cleanMeta t = true := by
  simp only [cleanMeta, List.all_cons, Bool.and_eq_true] at h
  refine ⟨h.1.1, ?_, h.2⟩
  rcases kv with ⟨k, v⟩
  cases v with
  | str s => exact ⟨s, rfl, h.1.2⟩
  | int i => simp [cleanVal] at h
  | rat q => simp [cleanVal] at h

theorem dictItems_chars (m : List (String × MVal)) (h : cleanMeta m = true) :
    ∀ c ∈ (dictItems m).data, dqChar c = true := by
  induction m with
  | nil => intro c hc; simp [dictItems] at hc
  | cons kv t ih =>
    rcases cleanMeta_cons kv t h with ⟨hk, ⟨s, hv, hs⟩, ht⟩
    intro c hc
    rw [dictItems_cons, hv] at hc
    simp only [String.data_append, List.mem_append, pyReprVal,
      pyReprStr_clean _ hk, pyReprStr_clean _ hs, data_colon_space] at hc
    have hq : dqChar '\'' = true := by decide
    rcases hc with ((h1 | h1) | h1) | h1
    · rcases List.mem_cons.mp h1 with rfl | h2
      · exact hq
      · rcases List.mem_append.mp h2 with h3 | h3
        · exact dqChar_of_clean c (by
            have := (List.all_eq_true.mp hk) c h3
            exact this)
        · rcases List.mem_singleton.mp h3 with rfl
          exact hq
    · rcases List.mem_cons.mp h1 with rfl | h2
      · decide
      · rcases List.mem_singleton.mp h2 with rfl
        decide
    · rcases List.mem_cons.mp h1 with rfl | h2
      · exact hq
      · rcases List.mem_append.mp h2 with h3 | h3
        · exact dqChar_of_clean c ((List.all_eq_true.mp hs) c h3)
        · rcases List.mem_singleton.mp h3 with rfl
          exact hq
    · cases t with
      | nil => simp [tailSepD] at h1
      | cons kv' r =>
        simp only [tailSepD, String.data_append, List.mem_append, data_comma_space] at h1
        rcases h1 with h2 | h2
        · rcases List.mem_cons.mp h2 with rfl | h3
          · decide
          · rcases List.mem_singleton.mp h3 with rfl
            decide
        · exact ih ht c h2

theorem pyStrDict_chars (m : List (String × MVal)) (h : cleanMeta m = true) :
    ∀ c ∈ (pyStrDict m).data, dqChar c = true := by
  intro c hc
  rw [pyStrDict_data] at hc
  rcases List.mem_cons.mp hc with rfl | h2
  · decide
  · rcases List.mem_append.mp h2 with h3 | h3
    · exact dictItems_chars m h c h3
    · rcases List.mem_singleton.mp h3 with rfl
      decide

theorem pyStrDict_no_dquote (m : List (String × MVal)) (h : cleanMeta m = true) :
    '"' ∉ (pyStrDict m).data := by
  intro hm
  have h2 := pyStrDict_chars m h _ hm
  simp [dqChar] at h2

theorem pyStrDict_has_squote (kv : String × MVal) (t : List (String × MVal))
    (h : cleanMeta (kv :: t) = true) : '\'' ∈ (pyStrDict (kv :: t)).data := by
  rcases cleanMeta_cons kv t h with ⟨hk, _, _⟩
  rw [pyStrDict_data, dictItems_cons]
  simp only [String.data_append, pyReprStr_clean _ hk]
  simp

theorem pyReprStr_dict (m : List (String × MVal)) (h : cleanMeta m = true)
    (hne : m ≠ []) :
    (pyReprStr (pyStrDict m)).data = '"' :: ((pyStrDict m).data ++ ['"']) := by
  obtain ⟨kv, t, rfl⟩ : ∃ kv t, m = kv :: t := by
    cases m with
    | nil => exact absurd rfl hne
    | cons kv t => exact ⟨kv, t, rfl⟩
  have hq := pyQuote_of_single_no_double _ (pyStrDict_has_squote kv t h)
    (pyStrDict_no_dquote _ h)
  simp only [pyReprStr, hq]
  show '"' :: (pyStrDict (kv :: t)).data.flatMap (pyEscapeChar '"') ++ ['"'] = _
  rw [flatMap_escape_dq _ (pyStrDict_chars _ h)]
  simp

theorem pyReprStr_dict_nil :
    (pyReprStr (pyStrDict [])).data = ['\'', lbrace, rbrace, '\''] := by decide

/-- Cutting a concatenation at a distinguished character: if `q` occurs
in neither prefix, the decompositions agree. -/
theorem append_cut {l₁ l₂ r₁ r₂ : List Char} {q : Char}
    (h1 : q ∉ l₁) (h2 : q ∉ l₂) (e : l₁ ++ q :: r₁ = l₂ ++ q :: r₂) :
    l₁ = l₂ ∧ r₁ = r₂ := by
  induction l₁ generalizing l₂ with
  | nil =>
    cases l₂ with
    | nil => simpa using e
    | cons c t =>
      simp only [List.nil_append, List.cons_append, List.cons.injEq] at e
      obtain ⟨rfl, -⟩ := e
      simp at h2
  | cons c t ih =>
    cases l₂ with
    | nil =>
      simp only [List.cons_append, List.nil_append, List.cons.injEq] at e
      obtain ⟨rfl, -⟩ := e
      simp at h1
    | cons c' t' =>
      simp only [List.cons_append, List.cons.injEq] at e
      obtain ⟨rfl, e2⟩ := e
      have h1' : q ∉ t := fun hm => h1 (List.mem_cons_of_mem _ hm)
      have h2' : q ∉ t' := fun hm => h2 (List.mem_cons_of_mem _ hm)
      rcases ih h1' h2' e2 with ⟨rfl, rfl⟩
      exact ⟨rfl, rfl⟩

theorem dictItems_inj (m₁ : List (String × MVal)) :
    ∀ m₂ : List (String × MVal), cleanMeta m₁ = true → cleanMeta m₂ = true →
    (dictItems m₁).data = (dictItems m₂).data → m₁ = m₂ := by
  induction m₁ with
  | nil =>
    intro m₂ h₁ h₂ he
    cases m₂ with
    | nil => rfl
    | cons kv t =>
      exfalso
      rcases cleanMeta_cons kv t h₂ with ⟨hk, ⟨s, hv, hs⟩, ht⟩
      rw [dictItems_cons] at he
      simp only [dictItems, String.data_append, pyReprStr_clean _ hk,
        List.cons_append, List.append_assoc, List.singleton_append] at he
      exact List.cons_ne_nil _ _ he.symm
  | cons kv t ih =>
    intro m₂ h₁ h₂ he
    cases m₂ with
    | nil =>
      exfalso
      rcases cleanMeta_cons kv t h₁ with ⟨hk, ⟨s, hv, hs⟩, ht⟩
      rw [dictItems_cons] at he
      simp only [dictItems, String.data_append, pyReprStr_clean _ hk,
        List.cons_append, List.append_assoc, List.singleton_append] at he
      exact List.cons_ne_nil _ _ he
    | cons kv' t' =>
      rcases kv with ⟨k, v⟩
      rcases kv' with ⟨k', v'⟩
      rcases cleanMeta_cons _ _ h₁ with ⟨hk, ⟨s, hv, hs⟩, ht⟩
      rcases cleanMeta_cons _ _ h₂ with ⟨hk', ⟨s', hv', hs'⟩, ht'⟩
      simp only at hv hv'
      subst hv
      subst hv'
      rw [dictItems_cons, dictItems_cons] at he
      simp only [pyReprVal, String.data_append, pyReprStr_clean _ hk,
        pyReprStr_clean _ hk', pyReprStr_clean _ hs, pyReprStr_clean _ hs',
        data_colon_space, List.cons_append, List.append_assoc,
        List.singleton_append, List.nil_append] at he
      injection he with hh he
      rcases append_cut (cleanStr_no_quote _ hk).1 (cleanStr_no_quote _ hk').1 he with
        ⟨hkeq, he2⟩
      injection he2 with hh2 he2
      injection he2 with hh3 he2
      injection he2 with hh4 he2
      rcases append_cut (cleanStr_no_quote _ hs).1 (cleanStr_no_quote _ hs').1 he2 with
        ⟨hseq, he3⟩
      have hk2 : k = k' := String.ext hkeq
      have hs2 : s = s' := String.ext hseq
      subst hk2
      subst hs2
      have ht2 : t = t' := by
        cases t with
        | nil =>
          cases t' with
          | nil => rfl
          | cons x r =>
            exfalso
            simp only [tailSepD, String.data_append, data_comma_space,
              List.cons_append] at he3
            exact List.cons_ne_nil _ _ he3.symm
        | cons x r =>
          cases t' with
          | nil =>
            exfalso
            simp only [tailSepD, String.data_append, data_comma_space,
              List.cons_append] at he3
            exact List.cons_ne_nil _ _ he3
          | cons x' r' =>
            simp only [tailSepD, String.data_append, data_comma_space,
              List.cons_append] at he3
            injection he3 with hh5 he3
            injection he3 with hh6 he3
            exact ih (x' :: r') ht ht' he3
      rw [ht2]

theorem data_lparen : ("(" : String).data = ['('] := rfl

theorem data_rparen : (")" : String).data = [')'] := rfl

theorem data_empty_str : ("" : String).data = [] := rfl

theorem cleanChunks_cons (d : Document) (t : List Document)
    (h : cleanChunks (d :: t) = true) :
    cleanStr d.page_content = true ∧ cleanMeta d.metadata = true ∧
      cleanChunks t = true := by
  simp only [cleanChunks, List.all_cons, Bool.and_eq_true] at h
  exact ⟨h.1.1, h.1.2, h.2⟩

/-- Parsing one serialized (content, dict) pair off the front of the
serialization: contents, metadata and the remainders agree. -/
theorem pairParse (c c' : String) (m m' : List (String × MVal)) (tl tl' : List Char)
    (hc : cleanStr c = true) (hc' : cleanStr c' = true)
    (hm : cleanMeta m = true) (hm' : cleanMeta m' = true)
    (he : (pyReprPair (c, pyStrDict m)).data ++ tl =
          (pyReprPair (c', pyStrDict m')).data ++ tl') :
    c = c' ∧ m = m' ∧ tl = tl' := by
  simp only [pyReprPair, String.data_append, data_lparen, data_rparen,
    data_comma_space, pyReprStr_clean _ hc, pyReprStr_clean _ hc',
    List.cons_append, List.append_assoc, List.singleton_append,
    List.nil_append] at he
  injection he with h0 he
  injection he with h1 he
  rcases append_cut (cleanStr_no_quote _ hc).1 (cleanStr_no_quote _ hc').1 he with
    ⟨hceq, he2⟩
  injection he2 with h2 he2
  injection he2 with h3 he2
  refine ⟨String.ext hceq, ?_⟩
  cases m with
  | nil =>
    cases m' with
    | nil =>
      rw [pyReprStr_dict_nil] at he2
      simp only [List.cons_append, List.nil_append] at he2
      injection he2 with h4 he2
      injection he2 with h5 he2
      injection he2 with h6 he2
      injection he2 with h7 he2
      injection he2 with h8 he2
      exact ⟨rfl, he2⟩
    | cons kv' mk' =>
      rw [pyReprStr_dict_nil, pyReprStr_dict _ hm' (by simp)] at he2
      simp only [List.cons_append, List.nil_append, List.append_assoc,
        List.singleton_append] at he2
      injection he2 with hq he2
      exact absurd hq (by decide)
  | cons kv mk =>
    cases m' with
    | nil =>
      rw [pyReprStr_dict_nil, pyReprStr_dict _ hm (by simp)] at he2
      simp only [List.cons_append, List.nil_append, List.append_assoc,
        List.singleton_append] at he2
      injection he2 with hq he2
      exact absurd hq (by decide)
    | cons kv' mk' =>
      rw [pyReprStr_dict _ hm (by simp), pyReprStr_dict _ hm' (by simp)] at he2
      simp only [List.cons_append, List.append_assoc, List.singleton_append] at he2
      injection he2 with hq he2
      rcases append_cut (pyStrDict_no_dquote _ hm) (pyStrDict_no_dquote _ hm') he2 with
        ⟨hdeq, he3⟩
      injection he3 with hp he3
      rw [pyStrDict_data, pyStrDict_data] at hdeq
      injection hdeq with hb hdeq
      exact ⟨dictItems_inj _ _ hm hm' (List.append_cancel_right hdeq), he3⟩

theorem chunks_items_inj (l₁ : List Document) :
    ∀ l₂ : List Document, cleanChunks l₁ = true → cleanChunks l₂ = true →
    (listItems (chunks_data l₁)).data = (listItems (chunks_data l₂)).data →
    l₁ = l₂ := by
  induction l₁ with
  | nil =>
    intro l₂ h₁ h₂ he
    cases l₂ with
    | nil => rfl
    | cons d t =>
      exfalso
      simp only [chunks_data, List.map_nil, List.map_cons, listItems,
        listItems_cons, pyReprPair, String.data_append, data_lparen,
        data_empty_str, List.cons_append, List.append_assoc,
        List.singleton_append] at he
      exact List.cons_ne_nil _ _ he.symm
  | cons d t ih =>
    intro l₂ h₁ h₂ he
    cases l₂ with
    | nil =>
      exfalso
      simp only [chunks_data, List.map_nil, List.map_cons, listItems,
        listItems_cons, pyReprPair, String.data_append, data_lparen,
        data_empty_str, List.cons_append, List.append_assoc,
        List.singleton_append] at he
      exact List.cons_ne_nil _ _ he
    | cons d' t' =>
      rcases cleanChunks_cons _ _ h₁ with ⟨hc, hm, ht⟩
      rcases cleanChunks_cons _ _ h₂ with ⟨hc', hm', ht'⟩
      rcases d with ⟨c, m⟩
      rcases d' with ⟨c', m'⟩
      simp only [chunks_data, List.map_cons, listItems_cons,
        String.data_append] at he
      rcases pairParse c c' m m' _ _ hc hc' hm hm' he with ⟨hceq, hmeq, hteq⟩
      subst hceq
      subst hmeq
      have ht2 : t = t' := by
        cases t with
        | nil =>
          cases t' with
          | nil => rfl
          | cons x r =>
            exfalso
            simp only [chunks_data, List.map_nil, List.map_cons, tailSepL,
              String.data_append, data_comma_space, data_empty_str,
              List.cons_append] at hteq
            exact List.cons_ne_nil _ _ hteq.symm
        | cons x r =>
          cases t' with
          | nil =>
            exfalso
            simp only [chunks_data, List.map_nil, List.map_cons, tailSepL,
              String.data_append, data_comma_space, data_empty_str,
              List.cons_append] at hteq
            exact List.cons_ne_nil _ _ hteq
          | cons x' r' =>
            simp only [chunks_data, List.map_cons, tailSepL,
              String.data_append, data_comma_space, List.cons_append] at hteq
            injection hteq with hh1 hteq
            injection hteq with hh2 hteq
            have := ih (x' :: r') ht ht' (by
              simpa only [chunks_data, List.map_cons] using hteq)
            exact this
      rw [ht2]

theorem data_lbracket : ("[" : String).data = ['['] := rfl

theorem data_rbracket : ("]" : String).data = [']'] := rfl

theorem chunks_str_inj (l₁ l₂ : List Document) (h₁ : cleanChunks l₁ = true)
    (h₂ : cleanChunks l₂ = true) (he : chunks_str l₁ = chunks_str l₂) :
    l₁ = l₂ := by
  apply chunks_items_inj _ _ h₁ h₂
  have h3 := congrArg String.data he
  simp only [chunks_str, pyStrListPairs, String.data_append, data_lbracket,
    data_rbracket, List.cons_append, List.append_assoc,
    List.singleton_append] at h3
  injection h3 with hb h3
  exact List.append_cancel_right h3

/-- C2 (amended): the fingerprint is a pure function of the ordered
sequence of (content, metadata) pairs as represented — equal sequences
give equal fingerprints — and, for chunks over the clean domain
(printable ASCII free of quotes and backslashes, string-valued metadata),
the serialized hash input `str(chunks_data)` is injective, so any
difference in a chunk's content or metadata, or in the order of chunks,
changes the hash input and hence (barring a SHA-256 collision) the
fingerprint.  Metadata dicts equal as key-value maps but differing in
insertion order are not guaranteed equal fingerprints (see the
counterexample). -/
theorem C2_fingerprint_determined_by_serialization :
    (∀ l₁ l₂ : List Document,
      l₁.map (fun ch => (ch.page_content, ch.metadata)) =
        l₂.map (fun ch => (ch.page_content, ch.metadata)) →
      chunks_hash l₁ = chunks_hash l₂) ∧
    (∀ l₁ l₂ : List Document, cleanChunks l₁ = true → cleanChunks l₂ = true →
      chunks_str l₁ = chunks_str l₂ → l₁ = l₂) := by
  constructor
  · intro l₁ l₂ h
    have e₁ : chunks_data l₁ =
        (l₁.map fun ch => (ch.page_content, ch.metadata)).map
          fun p => (p.1, pyStrDict p.2) := by
      rw [List.map_map]
      rfl
    have e₂ : chunks_data l₂ =
        (l₂.map fun ch => (ch.page_content, ch.metadata)).map
          fun p => (p.1, pyStrDict p.2) := by
      rw [List.map_map]
      rfl
    have hd : chunks_data l₁ = chunks_data l₂ := by rw [e₁, e₂, h]
    rw [chunks_hash, chunks_hash, chunks_str, chunks_str, hd]
  · exact chunks_str_inj

/-- The two chunks of the counterexample: identical content, metadata
dicts equal as maps but with the two keys inserted in opposite order. -/
def chunkA : Document := ⟨"text", [("a", .str "1"), ("b", .str "2")]⟩

def chunkB : Document := ⟨"text", [("b", .str "2"), ("a", .str "1")]⟩

/-- C2 witness: the amended injectivity applied on the clean domain. -/
theorem C2_fingerprint_witness :
    cleanChunks [chunkA] = true ∧ ([chunkA] : List Document) = [chunkA] :=
  ⟨by decide, C2_fingerprint_determined_by_serialization.2 [chunkA] [chunkA]
    (by decide) (by decide) rfl⟩

set_option maxRecDepth 40000 in
/-- C2 counterexample: two single-chunk lists whose chunks have equal
content and metadata equal as key-value maps (a permutation with equal
lookups at every key), which the claim says must have equal fingerprints —
yet the fingerprints differ, because the hash input serializes
`str(metadata)` in dict insertion order. -/
theorem C2_counterexample_metadata_dict_order :
    chunkA.page_content = chunkB.page_content ∧
    chunkA.metadata.Perm chunkB.metadata ∧
    (∀ k, getKey chunkA.metadata k = getKey chunkB.metadata k) ∧
    chunks_hash [chunkA] ≠ chunks_hash [chunkB] := by
  refine ⟨rfl, by decide, ?_, by decide⟩
  intro k
  by_cases h1 : "a" = k
  · subst h1
    decide
  · by_cases h2 : "b" = k
    · subst h2
      decide
    · simp [chunkA, chunkB, getKey, h1, h2]
